import Mathlib

/-!
# Verification of the Aegisum proof-of-work core (`src/pow.cpp`)

A shallow embedding of the difficulty-retarget and proof-of-work-check logic of
`src/pow.cpp`.  256-bit machine integers (`arith_uint256`) are modelled as `Nat`
with explicit `% 2^256` where overflow can occur; `int64_t` quantities are `Int`
(`Int.tdiv` is C++ truncated division, `Int.emod` agrees with C++ `%` on the
non-negative dividends that occur here); `uint32_t` compact values are `Nat`.
The compact-target codec (`arith_uint256::SetCompact`/`GetCompact`) and the
chain data structures live outside the extracted source file and are modelled
from the specification where so marked.
-/

set_option maxRecDepth 10000

namespace AegisumPow

/-- Bit length of a natural number, computed with explicit fuel so that it
evaluates by kernel reduction.  `bitlenAux fuel x` is the bit length of `x`
for `x < 2 ^ fuel`. -/
def bitlenAux : Nat → Nat → Nat
  | 0, _ => 0
  | fuel + 1, x => if x = 0 then 0 else bitlenAux fuel (x / 2) + 1

/-- Modelled from the spec: `arith_uint256::bits()`, the position of the
highest set bit plus one, of a value that fits in 256 bits (the fuel 257
covers every value the embedding ever feeds it). -/
def bitlen (x : Nat) : Nat := bitlenAux 257 x

/-- Conversion of a C++ `int64_t` to `uint64_t` (two's complement), as used by
the implicit `int64_t → arith_uint256` conversions in the source. -/
def toU64 (i : Int) : Nat := (i % (2 ^ 64 : Int)).toNat

/-- Modelled from the spec: `arith_uint256::SetCompact` (§4.1 compact-target
decode; the codec source is not under `src/`).  Returns the decoded 256-bit
value together with the `negative` and `overflow` flags. -/
def SetCompact (nCompact : Nat) : Nat × Bool × Bool :=
  let nSize := nCompact >>> 24
  let nWord := nCompact &&& 0x007fffff
  let value : Nat :=
    if nSize ≤ 3 then nWord >>> (8 * (3 - nSize))
    else (nWord <<< (8 * (nSize - 3))) % 2 ^ 256
  let fNegative : Bool := (nWord != 0) && (nCompact &&& 0x00800000 != 0)
  let fOverflow : Bool := (nWord != 0) &&
    (decide (nSize > 34) || (decide (nWord > 0xff) && decide (nSize > 33)) ||
      (decide (nWord > 0xffff) && decide (nSize > 32)))
  (value, fNegative, fOverflow)

/-- Modelled from the spec: `arith_uint256::GetCompact` with `fNegative =
false` (§4.1 compact-target encode; the codec source is not under `src/`).
The intermediate `nCompact` is a `uint32_t` computed from a `uint64_t`
(`GetLow64`), hence the `% 2^64` and `% 2^32` truncations. -/
def GetCompact (value : Nat) : Nat :=
  let nSize := (bitlen value + 7) / 8
  let nCompact : Nat :=
    if nSize ≤ 3 then (((value % 2 ^ 64) <<< (8 * (3 - nSize))) % 2 ^ 64) % 2 ^ 32
    else ((value >>> (8 * (nSize - 3))) % 2 ^ 64) % 2 ^ 32
  let adjusted : Nat × Nat :=
    if nCompact &&& 0x00800000 ≠ 0 then (nCompact >>> 8, nSize + 1)
    else (nCompact, nSize)
  adjusted.1 ||| (adjusted.2 <<< 24)

/-- Modelled from the spec: the immutable consensus-parameter structure
(§3 ConsensusParams; `Consensus::Params` is not under `src/`).  `powLimit` is
the 256-bit limit as an unsigned value, the heights and time quantities are
the C++ signed integers. -/
structure ConsensusParams where
  powLimit : Nat
  nPowTargetSpacing : Int
  nPowTargetTimespan : Int
  fPowAllowMinDifficultyBlocks : Bool
  fPowNoRetargeting : Bool
  nPerBlockDifficultyActivationHeight : Int
  nDifficultyChangeActivationHeight : Int

/-- Modelled from the spec: `difficulty_adjustment_interval =
pow_target_timespan / pow_target_spacing` (§3), with C++ `int64_t` truncated
division. -/
def ConsensusParams.DifficultyAdjustmentInterval (p : ConsensusParams) : Int :=
  Int.tdiv p.nPowTargetTimespan p.nPowTargetSpacing

/-- Modelled from the spec: a block-header record of the chain lookback view
(§3 BlockHeaderRecord).  `pprev` is absent exactly for records with no
predecessor; `nTime` is the header timestamp as returned by `GetBlockTime()`;
`nHeight` is non-negative per the data model. -/
inductive CBlockIndex : Type where
  | mk (pprev : Option CBlockIndex) (nHeight : Nat) (nTime : Int) (nBits : Nat) : CBlockIndex

def CBlockIndex.pprev : CBlockIndex → Option CBlockIndex
  | .mk p _ _ _ => p

def CBlockIndex.nHeight : CBlockIndex → Nat
  | .mk _ h _ _ => h

def CBlockIndex.nTime : CBlockIndex → Int
  | .mk _ _ t _ => t

def CBlockIndex.nBits : CBlockIndex → Nat
  | .mk _ _ _ b => b

/-- The data-model invariant (§3): following predecessor references terminates
at genesis in exactly `nHeight` steps, i.e. heights increase by one from a
genesis record of height 0. -/
def wellFormed : CBlockIndex → Bool
  | .mk none h _ _ => h == 0
  | .mk (some p) h _ _ => (h == p.nHeight + 1) && wellFormed p

/-- All records of the predecessor chain (the record itself included) satisfy
a boolean predicate. -/
def chainAll (P : CBlockIndex → Bool) : CBlockIndex → Bool
  | .mk none h t b => P (.mk none h t b)
  | .mk (some p) h t b => P (.mk (some p) h t b) && chainAll P p

/-- The terminal (genesis) record of a predecessor chain. -/
def tipGenesis : CBlockIndex → CBlockIndex
  | .mk none h t b => .mk none h t b
  | .mk (some p) _ _ _ => tipGenesis p

/-- `pow.cpp` lines 119-121 and 169-171: clamp the freshly computed target to
the proof-of-work limit. -/
def powClamp (bnNew bnPowLimit : Nat) : Nat :=
  if bnNew > bnPowLimit then bnPowLimit else bnNew

/-- `pow.cpp` lines 104-117 and 155-167: the shared overflow-safe rescale of a
target by `ts / divisor`.  `bits()` of a `uint32_t` minus one wraps modulo
`2^32` when the limit is zero, exactly as the C++ unsigned subtraction does;
all 256-bit operations are modulo `2^256`.  (C++ division by zero would throw;
the `Nat` model returns 0 — every theorem that depends on the quotient carries
a positivity hypothesis on the divisor.) -/
def rescale (bnStart : Nat) (ts divisor : Int) (bnPowLimit : Nat) : Nat :=
  let fShift := bitlen bnStart > (bitlen bnPowLimit + (2 ^ 32 - 1)) % 2 ^ 32
  let bn1 := if fShift then bnStart >>> 1 else bnStart
  let bn2 := (bn1 * toU64 ts) % 2 ^ 256
  let bn3 := bn2 / toU64 divisor
  if fShift then (bn3 <<< 1) % 2 ^ 256 else bn3

/-- `pow.cpp` lines 131-152: the legacy actual timespan, clamped with the
pre- or post-activation factors (`nDifficultyChangeActivationHeight`). -/
def legacyClampedTimespan (pindexLast : CBlockIndex) (nFirstBlockTime : Int)
    (p : ConsensusParams) : Int :=
  let nActualTimespan := pindexLast.nTime - nFirstBlockTime
  if (pindexLast.nHeight : Int) ≥ p.nDifficultyChangeActivationHeight then
    let a := if nActualTimespan < Int.tdiv (p.nPowTargetTimespan * 2) 3 then
      Int.tdiv (p.nPowTargetTimespan * 2) 3 else nActualTimespan
    if a > p.nPowTargetTimespan * 6 then p.nPowTargetTimespan * 6 else a
  else
    let a := if nActualTimespan < Int.tdiv p.nPowTargetTimespan 4 then
      Int.tdiv p.nPowTargetTimespan 4 else nActualTimespan
    if a > p.nPowTargetTimespan * 4 then p.nPowTargetTimespan * 4 else a

/-- `pow.cpp` lines 85-101: the per-block actual timespan: the gap between the
last two blocks, floored at the target spacing when negative, then clamped to
`[9/10, 12/10]` of the target spacing. -/
def perBlockClampedTimespan (pindexLast prev : CBlockIndex) (p : ConsensusParams) : Int :=
  let nActualTimespan := pindexLast.nTime - prev.nTime
  let n1 := if nActualTimespan < 0 then p.nPowTargetSpacing else nActualTimespan
  let nMinTimespan := Int.tdiv (p.nPowTargetSpacing * 9) 10
  let nMaxTimespan := Int.tdiv (p.nPowTargetSpacing * 12) 10
  let n2 := if n1 < nMinTimespan then nMinTimespan else n1
  if n2 > nMaxTimespan then nMaxTimespan else n2

/-- The value the legacy routine computes before the `powLimit` clamp
(`pow.cpp` lines 131-167). -/
def legacyPreClamp (pindexLast : CBlockIndex) (nFirstBlockTime : Int)
    (p : ConsensusParams) : Nat :=
  rescale (SetCompact pindexLast.nBits).1
    (legacyClampedTimespan pindexLast nFirstBlockTime p) p.nPowTargetTimespan p.powLimit

/-- `pow.cpp` `CalculateNextWorkRequired` (lines 125-173). -/
def CalculateNextWorkRequired (pindexLast : CBlockIndex) (nFirstBlockTime : Int)
    (p : ConsensusParams) : Nat :=
  if p.fPowNoRetargeting then pindexLast.nBits
  else GetCompact (powClamp (legacyPreClamp pindexLast nFirstBlockTime p) p.powLimit)

/-- The value the per-block routine computes before the `powLimit` clamp
(`pow.cpp` lines 85-117). -/
def perBlockPreClamp (pindexLast prev : CBlockIndex) (p : ConsensusParams) : Nat :=
  rescale (SetCompact pindexLast.nBits).1
    (perBlockClampedTimespan pindexLast prev p) p.nPowTargetSpacing p.powLimit

/-- The full per-block retarget computation from the two most recent
timestamps (`pow.cpp` lines 85-122). -/
def perBlockAdjust (pindexLast prev : CBlockIndex) (p : ConsensusParams) : Nat :=
  GetCompact (powClamp (perBlockPreClamp pindexLast prev p) p.powLimit)

/-- `pow.cpp` `GetNextWorkRequiredPerBlock` (lines 66-123).  `pblockTime` is
`pblock->GetBlockTime()`. -/
def GetNextWorkRequiredPerBlock (pindexLast : CBlockIndex) (pblockTime : Int)
    (p : ConsensusParams) : Nat :=
  match pindexLast.pprev with
  | none => pindexLast.nBits
  | some prev =>
    if (pindexLast.nHeight : Int) + 1 = p.nPerBlockDifficultyActivationHeight then
      pindexLast.nBits
    else if p.fPowAllowMinDifficultyBlocks = true ∧
        pindexLast.nTime + p.nPowTargetSpacing * 2 < pblockTime then
      GetCompact p.powLimit
    else perBlockAdjust pindexLast prev p

/-- `pow.cpp` lines 40-43: walk predecessors while not at a retarget boundary
and the bits equal the proof-of-work-limit encoding. -/
def minDiffWalk (interval : Int) (nProofOfWorkLimit : Nat) : CBlockIndex → CBlockIndex
  | .mk none h t b => .mk none h t b
  | .mk (some p) h t b =>
    if (h : Int) % interval ≠ 0 ∧ b = nProofOfWorkLimit then
      minDiffWalk interval nProofOfWorkLimit p
    else .mk (some p) h t b

/-- `pow.cpp` lines 57-59: step back through `n` predecessor references,
returning `none` if a reference is absent before the steps are exhausted. -/
def walkBack : Nat → Option CBlockIndex → Option CBlockIndex
  | 0, r => r
  | _ + 1, none => none
  | n + 1, some idx => walkBack n idx.pprev

/-- `pow.cpp` `GetNextWorkRequired` (lines 13-64).  The result is `none`
exactly when the C++ `assert(pindexFirst)` on line 61 would fire. -/
def GetNextWorkRequired (pindexLast : CBlockIndex) (pblockTime : Int)
    (p : ConsensusParams) : Option Nat :=
  let nProofOfWorkLimit := GetCompact p.powLimit
  if (pindexLast.nHeight : Int) + 1 ≥ p.nPerBlockDifficultyActivationHeight then
    some (GetNextWorkRequiredPerBlock pindexLast pblockTime p)
  else if ((pindexLast.nHeight : Int) + 1) % p.DifficultyAdjustmentInterval ≠ 0 then
    if p.fPowAllowMinDifficultyBlocks then
      if pindexLast.nTime + p.nPowTargetSpacing * 2 < pblockTime then
        some nProofOfWorkLimit
      else
        some (minDiffWalk p.DifficultyAdjustmentInterval nProofOfWorkLimit pindexLast).nBits
    else some pindexLast.nBits
  else
    let blockstogoback : Int :=
      if (pindexLast.nHeight : Int) + 1 ≠ p.DifficultyAdjustmentInterval then
        p.DifficultyAdjustmentInterval
      else p.DifficultyAdjustmentInterval - 1
    match walkBack blockstogoback.toNat (some pindexLast) with
    | none => none
    | some pindexFirst => some (CalculateNextWorkRequired pindexLast pindexFirst.nTime p)

/-- `pow.cpp` `CheckProofOfWork` (lines 175-192).  `hash` is the header hash
as an unsigned 256-bit integer. -/
def CheckProofOfWork (hash : Nat) (nBits : Nat) (p : ConsensusParams) : Bool :=
  let bnTarget := (SetCompact nBits).1
  let fNegative := (SetCompact nBits).2.1
  let fOverflow := (SetCompact nBits).2.2
  if fNegative || (bnTarget == 0) || fOverflow || decide (bnTarget > p.powLimit) then false
  else if decide (hash > bnTarget) then false
  else true

/-! ## Bit-length lemmas -/

theorem bitlenAux_zero : ∀ fuel, bitlenAux fuel 0 = 0
  | 0 => rfl
  | _ + 1 => by simp [bitlenAux]

theorem bitlenAux_eq_log2 : ∀ fuel x, x < 2 ^ fuel → x ≠ 0 →
    bitlenAux fuel x = Nat.log2 x + 1
  | 0, x, hf, hx => by simp at hf; omega
  | fuel + 1, x, hf, hx => by
    rw [bitlenAux, if_neg hx]
    by_cases h1 : x = 1
    · subst h1
      rw [show (1 : Nat) / 2 = 0 from rfl, bitlenAux_zero]
      rw [Nat.log2]
      norm_num
    · have h2 : 2 ≤ x := by omega
      have hlt : x / 2 < 2 ^ fuel := by
        rw [Nat.pow_succ] at hf
        omega
      have hx2 : x / 2 ≠ 0 := by omega
      rw [bitlenAux_eq_log2 fuel (x / 2) hlt hx2]
      have hlog : Nat.log2 x = Nat.log2 (x / 2) + 1 := by
        conv_lhs => rw [Nat.log2]
        rw [if_pos h2]
      omega

theorem bitlen_eq_log2 (x : Nat) (hx : x < 2 ^ 257) (h : x ≠ 0) :
    bitlen x = Nat.log2 x + 1 :=
  bitlenAux_eq_log2 257 x hx h

theorem bitlen_zero : bitlen 0 = 0 := rfl

theorem lt_two_pow_bitlen {x : Nat} (hx : x < 2 ^ 257) : x < 2 ^ bitlen x := by
  by_cases h : x = 0
  · subst h; simp [bitlen_zero]
  · rw [bitlen_eq_log2 x hx h]
    exact (Nat.log2_lt h).1 (Nat.lt_succ_self _)

theorem bitlen_le {x k : Nat} (hk : k ≤ 257) (hx : x < 2 ^ k) : bitlen x ≤ k := by
  by_cases h : x = 0
  · subst h; simp [bitlen_zero]
  · have hx257 : x < 2 ^ 257 := lt_of_lt_of_le hx (Nat.pow_le_pow_right (by omega) hk)
    rw [bitlen_eq_log2 x hx257 h]
    have := (Nat.log2_lt h).2 hx
    omega

/-! ## Compact-target codec lemmas -/

/-- Bit 23 of a value below `2^24` is set iff the value is at least `2^23`. -/
theorem and_bit23_iff {m : Nat} (hm : m < 2 ^ 24) :
    m &&& 0x00800000 ≠ 0 ↔ 2 ^ 23 ≤ m := by
  have h23 : (0x00800000 : Nat) = 2 ^ 23 := by norm_num
  rw [h23, Nat.and_two_pow, Nat.testBit_to_div_mod]
  rcases Nat.lt_or_ge m (2 ^ 23) with h | h
  · rw [Nat.div_eq_of_lt h]
    simp
    omega
  · have : m / 2 ^ 23 = 1 := by omega
    rw [this]
    simp
    omega

/-- Decoding a compact value assembled as `mantissa + size * 2^24` with a
mantissa below `2^23` (so the sign bit is clear). -/
theorem SetCompact_val (mq Sq : Nat) (hm : mq < 2 ^ 23) :
    (SetCompact (mq + Sq * 2 ^ 24)).1 =
      if Sq ≤ 3 then mq >>> (8 * (3 - Sq)) else (mq <<< (8 * (Sq - 3))) % 2 ^ 256 := by
  have hshift : (mq + Sq * 2 ^ 24) >>> 24 = Sq := by
    rw [Nat.shiftRight_eq_div_pow]
    omega
  have hmask : (mq + Sq * 2 ^ 24) &&& 0x007fffff = mq := by
    have h23 : (0x007fffff : Nat) = 2 ^ 23 - 1 := by norm_num
    rw [h23, Nat.and_pow_two_sub_one_eq_mod]
    omega
  simp only [SetCompact, hshift, hmask]

/-- The 24-bit pre-adjustment mantissa of the encoder is below `2^24`. -/
theorem mantissa_lt (x S : Nat) (hxS : x < 2 ^ (8 * S)) :
    (if S ≤ 3 then x * 2 ^ (8 * (3 - S)) else x / 2 ^ (8 * (S - 3))) < 2 ^ 24 := by
  split
  · next h3 =>
    calc x * 2 ^ (8 * (3 - S)) < 2 ^ (8 * S) * 2 ^ (8 * (3 - S)) :=
          (Nat.mul_lt_mul_right (Nat.two_pow_pos _)).2 hxS
      _ = 2 ^ (8 * S + 8 * (3 - S)) := (Nat.pow_add 2 _ _).symm
      _ ≤ 2 ^ 24 := Nat.pow_le_pow_right (by omega) (by omega)
  · next h3 =>
    apply Nat.div_lt_of_lt_mul
    calc x < 2 ^ (8 * S) := hxS
      _ = 2 ^ (8 * (S - 3) + 24) := by congr 1; omega
      _ = 2 ^ (8 * (S - 3)) * 2 ^ 24 := Nat.pow_add 2 _ _

/-- The compact encode of `x < 2^256` in arithmetic form: mantissa plus
size-byte exponent, with the sign-avoidance adjustment. -/
theorem GetCompact_eq (x : Nat) (hx : x < 2 ^ 256) :
    GetCompact x =
      (if (if (bitlen x + 7) / 8 ≤ 3 then x * 2 ^ (8 * (3 - (bitlen x + 7) / 8))
           else x / 2 ^ (8 * ((bitlen x + 7) / 8 - 3))) < 2 ^ 23 then
        (if (bitlen x + 7) / 8 ≤ 3 then x * 2 ^ (8 * (3 - (bitlen x + 7) / 8))
         else x / 2 ^ (8 * ((bitlen x + 7) / 8 - 3))) + ((bitlen x + 7) / 8) * 2 ^ 24
      else
        (if (bitlen x + 7) / 8 ≤ 3 then x * 2 ^ (8 * (3 - (bitlen x + 7) / 8))
         else x / 2 ^ (8 * ((bitlen x + 7) / 8 - 3))) / 2 ^ 8 +
          ((bitlen x + 7) / 8 + 1) * 2 ^ 24) := by
  have hx257 : x < 2 ^ 257 := by omega
  have hxb : x < 2 ^ bitlen x := lt_two_pow_bitlen hx257
  set S := (bitlen x + 7) / 8 with hS
  have hbS : bitlen x ≤ 8 * S := by omega
  have hxS : x < 2 ^ (8 * S) :=
    lt_of_lt_of_le hxb (Nat.pow_le_pow_right (by omega) hbS)
  set m : Nat := if S ≤ 3 then x * 2 ^ (8 * (3 - S)) else x / 2 ^ (8 * (S - 3)) with hmdef
  have hm24 : m < 2 ^ 24 := hmdef ▸ mantissa_lt x S hxS
  have hnc : (if S ≤ 3 then (((x % 2 ^ 64) <<< (8 * (3 - S))) % 2 ^ 64) % 2 ^ 32
              else ((x >>> (8 * (S - 3))) % 2 ^ 64) % 2 ^ 32) = m := by
    rw [hmdef]
    by_cases h3 : S ≤ 3
    · rw [if_pos h3, if_pos h3]
      have hx24 : x < 2 ^ 24 := by
        have hb24 : bitlen x ≤ 24 := by omega
        exact lt_of_lt_of_le hxb (Nat.pow_le_pow_right (by omega) hb24)
      have hm' : x * 2 ^ (8 * (3 - S)) < 2 ^ 24 := by
        have := mantissa_lt x S hxS
        rwa [if_pos h3] at this
      rw [Nat.mod_eq_of_lt (show x < 2 ^ 64 by omega), Nat.shiftLeft_eq]
      rw [Nat.mod_eq_of_lt (show x * 2 ^ (8 * (3 - S)) < 2 ^ 64 by omega)]
      rw [Nat.mod_eq_of_lt (show x * 2 ^ (8 * (3 - S)) < 2 ^ 32 by omega)]
    · rw [if_neg h3, if_neg h3, Nat.shiftRight_eq_div_pow]
      have hm' : x / 2 ^ (8 * (S - 3)) < 2 ^ 24 := by
        have := mantissa_lt x S hxS
        rwa [if_neg h3] at this
      rw [Nat.mod_eq_of_lt (show x / 2 ^ (8 * (S - 3)) < 2 ^ 64 by omega)]
      rw [Nat.mod_eq_of_lt (show x / 2 ^ (8 * (S - 3)) < 2 ^ 32 by omega)]
  simp only [GetCompact]
  rw [← hS, hnc]
  by_cases hsign : 2 ^ 23 ≤ m
  · rw [if_pos ((and_bit23_iff hm24).2 hsign), if_neg (by omega)]
    show (m >>> 8) ||| ((S + 1) <<< 24) = m / 2 ^ 8 + (S + 1) * 2 ^ 24
    have h16 : m / 2 ^ 8 < 2 ^ 24 := by omega
    rw [Nat.shiftRight_eq_div_pow, Nat.shiftLeft_eq, Nat.lor_comm,
      Nat.mul_comm (S + 1) (2 ^ 24), ← Nat.mul_add_lt_is_or h16 (S + 1)]
    omega
  · rw [if_neg (fun hc => hsign ((and_bit23_iff hm24).1 hc)), if_pos (by omega)]
    show m ||| (S <<< 24) = m + S * 2 ^ 24
    rw [Nat.shiftLeft_eq, Nat.lor_comm, Nat.mul_comm S (2 ^ 24),
      ← Nat.mul_add_lt_is_or hm24 S]
    omega

/-- Decode after encode never increases the value: the compact encoding only
truncates low-order mantissa bits. -/
theorem setCompact_getCompact_le (x : Nat) (hx : x < 2 ^ 256) :
    (SetCompact (GetCompact x)).1 ≤ x := by
  have hx257 : x < 2 ^ 257 := by omega
  have hxb : x < 2 ^ bitlen x := lt_two_pow_bitlen hx257
  rw [GetCompact_eq x hx]
  set S := (bitlen x + 7) / 8 with hS
  have hbS : bitlen x ≤ 8 * S := by omega
  have hxS : x < 2 ^ (8 * S) :=
    lt_of_lt_of_le hxb (Nat.pow_le_pow_right (by omega) hbS)
  set m : Nat := if S ≤ 3 then x * 2 ^ (8 * (3 - S)) else x / 2 ^ (8 * (S - 3)) with hmdef
  have hm24 : m < 2 ^ 24 := hmdef ▸ mantissa_lt x S hxS
  by_cases hsign : m < 2 ^ 23
  · -- sign bit clear: mantissa m, size S
    rw [if_pos hsign, SetCompact_val m S hsign]
    by_cases h3 : S ≤ 3
    · rw [if_pos h3, hmdef, if_pos h3, Nat.shiftRight_eq_div_pow]
      rw [Nat.mul_div_cancel x (Nat.two_pow_pos _)]
    · rw [if_neg h3, hmdef, if_neg h3, Nat.shiftLeft_eq]
      have hle : x / 2 ^ (8 * (S - 3)) * 2 ^ (8 * (S - 3)) ≤ x := Nat.div_mul_le_self x _
      rw [Nat.mod_eq_of_lt (by omega)]
      exact hle
  · -- sign bit set: mantissa m / 2^8, size S + 1
    rw [if_neg hsign]
    have hm8 : m / 2 ^ 8 < 2 ^ 23 := by omega
    rw [SetCompact_val (m / 2 ^ 8) (S + 1) hm8]
    by_cases h3 : S + 1 ≤ 3
    · -- S ≤ 2, so m = x * 2^(8 * (3 - S)) and decode recovers x exactly
      rw [if_pos h3, hmdef, if_pos (by omega), Nat.shiftRight_eq_div_pow]
      rw [Nat.div_div_eq_div_mul, ← Nat.pow_add]
      have harith : 8 + 8 * (3 - (S + 1)) = 8 * (3 - S) := by omega
      rw [harith, Nat.mul_div_cancel x (Nat.two_pow_pos _)]
    · rw [if_neg h3, Nat.shiftLeft_eq]
      have key : m / 2 ^ 8 * 2 ^ (8 * (S + 1 - 3)) ≤ x := by
        rcases Nat.lt_or_ge S 4 with hS3 | hS4
        · -- the sign bit forces S = 3 here, where m = x * 2^0
          have hSeq : S = 3 := by omega
          rw [hmdef, if_pos (by omega)]
          have h30 : 8 * (3 - S) = 0 := by omega
          have h31 : 8 * (S + 1 - 3) = 8 := by omega
          rw [h30, h31, pow_zero, Nat.mul_one]
          exact Nat.div_mul_le_self x _
        · rw [hmdef, if_neg (by omega), Nat.div_div_eq_div_mul, ← Nat.pow_add]
          have harith : 8 * (S - 3) + 8 = 8 * (S + 1 - 3) := by omega
          rw [harith]
          exact Nat.div_mul_le_self x _
      rw [Nat.mod_eq_of_lt (by omega)]
      exact key

/-! ## Rescale bounds -/

theorem toU64_eq {i : Int} (h0 : 0 ≤ i) (h1 : i < 2 ^ 64) : toU64 i = i.toNat := by
  rw [toU64, Int.emod_eq_of_lt h0 h1]

/-- The rescaled value times the divisor never exceeds the input times the
timespan — multiplication truncation, the overflow shift and the `2^256`
wraparounds only ever lose value. -/
theorem rescale_mul_le (bnStart : Nat) (ts divisor : Int) (bnPowLimit : Nat)
    (hts0 : 0 ≤ ts) (hts1 : ts < 2 ^ 64) (hd0 : 0 ≤ divisor) (hd1 : divisor < 2 ^ 64) :
    rescale bnStart ts divisor bnPowLimit * divisor.toNat ≤ bnStart * ts.toNat := by
  by_cases hf : bitlen bnStart > (bitlen bnPowLimit + (2 ^ 32 - 1)) % 2 ^ 32
  · simp only [rescale, toU64_eq hts0 hts1, toU64_eq hd0 hd1, if_pos hf]
    rw [Nat.shiftRight_eq_div_pow, Nat.shiftLeft_eq, pow_one]
    calc (bnStart / 2 * ts.toNat % 2 ^ 256 / divisor.toNat * 2) % 2 ^ 256 * divisor.toNat
        ≤ bnStart / 2 * ts.toNat % 2 ^ 256 / divisor.toNat * 2 * divisor.toNat :=
          Nat.mul_le_mul_right _ (Nat.mod_le _ _)
      _ = bnStart / 2 * ts.toNat % 2 ^ 256 / divisor.toNat * divisor.toNat * 2 := by ring
      _ ≤ bnStart / 2 * ts.toNat % 2 ^ 256 * 2 :=
          Nat.mul_le_mul_right _ (Nat.div_mul_le_self _ _)
      _ ≤ bnStart / 2 * ts.toNat * 2 := Nat.mul_le_mul_right _ (Nat.mod_le _ _)
      _ = bnStart / 2 * 2 * ts.toNat := by ring
      _ ≤ bnStart * ts.toNat := Nat.mul_le_mul_right _ (Nat.div_mul_le_self bnStart 2)
  · simp only [rescale, toU64_eq hts0 hts1, toU64_eq hd0 hd1, if_neg hf]
    calc bnStart * ts.toNat % 2 ^ 256 / divisor.toNat * divisor.toNat
        ≤ bnStart * ts.toNat % 2 ^ 256 := Nat.div_mul_le_self _ _
      _ ≤ bnStart * ts.toNat := Nat.mod_le _ _

/-- Lower bound on the rescale when the intermediate product fits in 256
bits: at most one timespan plus two divisors of value are lost to the shift
and the division truncation. -/
theorem rescale_mul_ge (bnStart : Nat) (ts divisor : Int) (bnPowLimit : Nat)
    (hts0 : 0 ≤ ts) (hts1 : ts < 2 ^ 64) (hd0 : 0 < divisor) (hd1 : divisor < 2 ^ 64)
    (hover : bnStart * ts.toNat < 2 ^ 256) :
    bnStart * ts.toNat ≤
      rescale bnStart ts divisor bnPowLimit * divisor.toNat + ts.toNat + 2 * divisor.toNat := by
  have hdN : 0 < divisor.toNat := by omega
  by_cases hf : bitlen bnStart > (bitlen bnPowLimit + (2 ^ 32 - 1)) % 2 ^ 32
  · simp only [rescale, toU64_eq hts0 hts1, toU64_eq (le_of_lt hd0) hd1, if_pos hf]
    rw [Nat.shiftRight_eq_div_pow, Nat.shiftLeft_eq, pow_one]
    have hhalf : bnStart / 2 * ts.toNat ≤ bnStart * ts.toNat :=
      Nat.mul_le_mul_right _ (Nat.div_le_self _ _)
    rw [Nat.mod_eq_of_lt (lt_of_le_of_lt hhalf hover)]
    have hq2d : bnStart / 2 * ts.toNat / divisor.toNat * 2 * divisor.toNat ≤ bnStart * ts.toNat := by
      calc bnStart / 2 * ts.toNat / divisor.toNat * 2 * divisor.toNat
          = bnStart / 2 * ts.toNat / divisor.toNat * divisor.toNat * 2 := by ring
        _ ≤ bnStart / 2 * ts.toNat * 2 := Nat.mul_le_mul_right _ (Nat.div_mul_le_self _ _)
        _ = bnStart / 2 * 2 * ts.toNat := by ring
        _ ≤ bnStart * ts.toNat := Nat.mul_le_mul_right _ (Nat.div_mul_le_self bnStart 2)
    have hq2 : bnStart / 2 * ts.toNat / divisor.toNat * 2 < 2 ^ 256 := by
      have h1 : bnStart / 2 * ts.toNat / divisor.toNat * 2
          ≤ bnStart / 2 * ts.toNat / divisor.toNat * 2 * divisor.toNat :=
        Nat.le_mul_of_pos_right _ hdN
      omega
    rw [Nat.mod_eq_of_lt hq2]
    -- division with remainder on the halved product
    have hdm := Nat.div_add_mod (bnStart / 2 * ts.toNat) divisor.toNat
    have hrem : bnStart / 2 * ts.toNat % divisor.toNat < divisor.toNat := Nat.mod_lt _ hdN
    have hup : bnStart * ts.toNat ≤ 2 * (bnStart / 2 * ts.toNat) + ts.toNat := by
      have h2b : bnStart ≤ 2 * (bnStart / 2) + 1 := by omega
      calc bnStart * ts.toNat ≤ (2 * (bnStart / 2) + 1) * ts.toNat :=
            Nat.mul_le_mul_right _ h2b
        _ = 2 * (bnStart / 2 * ts.toNat) + ts.toNat := by ring
    have hqd : bnStart / 2 * ts.toNat / divisor.toNat * 2 * divisor.toNat
        = 2 * (divisor.toNat * (bnStart / 2 * ts.toNat / divisor.toNat)) := by ring
    omega
  · simp only [rescale, toU64_eq hts0 hts1, toU64_eq (le_of_lt hd0) hd1, if_neg hf]
    rw [Nat.mod_eq_of_lt hover]
    have hdm := Nat.div_add_mod (bnStart * ts.toNat) divisor.toNat
    have hrem : bnStart * ts.toNat % divisor.toNat < divisor.toNat := Nat.mod_lt _ hdN
    have hqd : bnStart * ts.toNat / divisor.toNat * divisor.toNat
        = divisor.toNat * (bnStart * ts.toNat / divisor.toNat) := by ring
    omega

/-- Combined two-sided bound for a clamped timespan lying in a window
`[tmin, tmax]`. -/
theorem rescale_window (bnStart : Nat) (ts tmin tmax divisor : Int) (bnPowLimit : Nat)
    (h1 : tmin ≤ ts) (h2 : ts ≤ tmax) (h0 : 0 ≤ tmin) (h3 : tmax < 2 ^ 64)
    (hd0 : 0 < divisor) (hd1 : divisor < 2 ^ 64)
    (hover : bnStart * tmax.toNat < 2 ^ 256) :
    rescale bnStart ts divisor bnPowLimit * divisor.toNat ≤ bnStart * tmax.toNat ∧
    bnStart * tmin.toNat ≤ rescale bnStart ts divisor bnPowLimit * divisor.toNat
      + tmax.toNat + 2 * divisor.toNat := by
  have hts0 : 0 ≤ ts := le_trans h0 h1
  have hts1 : ts < 2 ^ 64 := lt_of_le_of_lt h2 h3
  have hmono1 : ts.toNat ≤ tmax.toNat := by omega
  have hmono0 : tmin.toNat ≤ ts.toNat := by omega
  have hub : bnStart * ts.toNat ≤ bnStart * tmax.toNat := Nat.mul_le_mul_left _ hmono1
  have hlb : bnStart * tmin.toNat ≤ bnStart * ts.toNat := Nat.mul_le_mul_left _ hmono0
  have hover2 : bnStart * ts.toNat < 2 ^ 256 := lt_of_le_of_lt hub hover
  have hu := rescale_mul_le bnStart ts divisor bnPowLimit hts0 hts1 (le_of_lt hd0) hd1
  have hl := rescale_mul_ge bnStart ts divisor bnPowLimit hts0 hts1 hd0 hd1 hover2
  exact ⟨le_trans hu hub, by omega⟩

/-! ## Clamped-timespan windows -/

theorem legacyClampedTimespan_old (pindexLast : CBlockIndex) (ft : Int) (p : ConsensusParams)
    (hera : (pindexLast.nHeight : Int) < p.nDifficultyChangeActivationHeight)
    (hT : 0 < p.nPowTargetTimespan) :
    Int.tdiv p.nPowTargetTimespan 4 ≤ legacyClampedTimespan pindexLast ft p ∧
    legacyClampedTimespan pindexLast ft p ≤ p.nPowTargetTimespan * 4 := by
  have htd : Int.tdiv p.nPowTargetTimespan 4 = p.nPowTargetTimespan / 4 :=
    Int.tdiv_eq_ediv (by omega) (by omega)
  simp only [legacyClampedTimespan, if_neg (by omega : ¬((pindexLast.nHeight : Int) ≥ p.nDifficultyChangeActivationHeight)), htd]
  split_ifs <;> omega

theorem legacyClampedTimespan_new (pindexLast : CBlockIndex) (ft : Int) (p : ConsensusParams)
    (hera : (pindexLast.nHeight : Int) ≥ p.nDifficultyChangeActivationHeight)
    (hT : 0 < p.nPowTargetTimespan) :
    Int.tdiv (p.nPowTargetTimespan * 2) 3 ≤ legacyClampedTimespan pindexLast ft p ∧
    legacyClampedTimespan pindexLast ft p ≤ p.nPowTargetTimespan * 6 := by
  have htd : Int.tdiv (p.nPowTargetTimespan * 2) 3 = p.nPowTargetTimespan * 2 / 3 :=
    Int.tdiv_eq_ediv (by omega) (by omega)
  simp only [legacyClampedTimespan, if_pos hera, htd]
  split_ifs <;> omega

theorem perBlockClampedTimespan_mem (pindexLast prev : CBlockIndex) (p : ConsensusParams)
    (hs : 0 < p.nPowTargetSpacing) :
    Int.tdiv (p.nPowTargetSpacing * 9) 10 ≤ perBlockClampedTimespan pindexLast prev p ∧
    perBlockClampedTimespan pindexLast prev p ≤ Int.tdiv (p.nPowTargetSpacing * 12) 10 := by
  have h9 : Int.tdiv (p.nPowTargetSpacing * 9) 10 = p.nPowTargetSpacing * 9 / 10 :=
    Int.tdiv_eq_ediv (by omega) (by omega)
  have h12 : Int.tdiv (p.nPowTargetSpacing * 12) 10 = p.nPowTargetSpacing * 12 / 10 :=
    Int.tdiv_eq_ediv (by omega) (by omega)
  simp only [perBlockClampedTimespan, h9, h12]
  split_ifs <;> omega

/-! ## Claim C1: the proof-of-work verifier -/

/-- C1: `check_proof_of_work(hash, bits, params)` returns true if and only if
decoding `bits` reports neither negative nor overflow, the decoded target is
nonzero and at most `pow_limit`, and `hash` (as an unsigned 256-bit integer)
is at most the decoded target; in every other case it returns false. -/
theorem C1_checkProofOfWork_iff (hash nBits : Nat) (p : ConsensusParams) :
    CheckProofOfWork hash nBits p = true ↔
      ((SetCompact nBits).2.1 = false ∧ (SetCompact nBits).2.2 = false ∧
        (SetCompact nBits).1 ≠ 0 ∧ (SetCompact nBits).1 ≤ p.powLimit ∧
        hash ≤ (SetCompact nBits).1) := by
  rcases hsc : SetCompact nBits with ⟨t, neg, ovf⟩
  simp only [CheckProofOfWork, hsc]
  constructor
  · intro h
    split_ifs at h with h1 h2
    refine ⟨?_, ?_, ?_, ?_, ?_⟩
    · cases neg
      · rfl
      · exact absurd (by simp : (true || (t == 0) || ovf || decide (t > p.powLimit)) = true) h1
    · cases ovf
      · rfl
      · exact absurd (by simp : (neg || (t == 0) || true || decide (t > p.powLimit)) = true) h1
    · intro h0
      exact h1 (by simp [h0])
    · by_contra hgt
      exact h1 (by simp [show p.powLimit < t by omega])
    · by_contra hgt
      exact h2 (by simp; omega)
  · rintro ⟨ha, hb, hc, hd, he⟩
    subst ha
    subst hb
    rw [if_neg (show ¬((false || (t == 0) || false || decide (t > p.powLimit)) = true) by
      simp; omega)]
    rw [if_neg (show ¬(decide (hash > t) = true) by simp; omega)]

/-! ## Claim C2: the no-retargeting flag -/

def pC2 : ConsensusParams := ⟨0x7fffff * 2 ^ 232, 150, 302400, false, true, 1000, 0⟩

def prevC2 : CBlockIndex := .mk none 9 0 0x1b0404cb

def lastC2 : CBlockIndex := .mk (some prevC2) 10 120 0x1b0404cb

/-- C2 (amended): when `no_retargeting` is true the shared
calculate-from-elapsed-time routine returns `last.bits` unchanged for every
input; the per-block calculator never consults the flag. -/
theorem C2_noRetargeting_freezes (pindexLast : CBlockIndex) (ft : Int)
    (p : ConsensusParams) (h : p.fPowNoRetargeting = true) :
    CalculateNextWorkRequired pindexLast ft p = pindexLast.nBits := by
  simp [CalculateNextWorkRequired, h]

/-- C2 witness: the amended theorem applied at a concrete input. -/
theorem C2_noRetargeting_freezes_witness :
    CalculateNextWorkRequired lastC2 0 pC2 = lastC2.nBits :=
  C2_noRetargeting_freezes lastC2 0 pC2 (by decide)

/-- C2 counterexample: a concrete input with `no_retargeting` true on which
the per-block calculator does not return `last.bits`. -/
theorem C2_counterexample :
    pC2.fPowNoRetargeting = true ∧
    GetNextWorkRequiredPerBlock lastC2 0 pC2 ≠ lastC2.nBits := by decide

/-! ## Claim C4: results decode to at most the pow limit -/

def pC4 : ConsensusParams := ⟨0x7fffff * 2 ^ 232, 150, 302400, false, false, 1000, 0⟩

def prevC4 : CBlockIndex := .mk none 9 0 0x1b0404cb

def lastC4 : CBlockIndex := .mk (some prevC4) 10 120 0x1b0404cb

/-- C4: whenever the shared routine (with `no_retargeting` false) or the
per-block calculator (past its early-return and minimum-difficulty branches)
performs the rescale computation, the returned compact value decodes to a
target at most `pow_limit`. -/
theorem C4_result_le_powLimit (p : ConsensusParams) (pindexLast prev : CBlockIndex)
    (ft t : Int) (hpl : p.powLimit < 2 ^ 256) :
    (p.fPowNoRetargeting = false →
      (SetCompact (CalculateNextWorkRequired pindexLast ft p)).1 ≤ p.powLimit) ∧
    (pindexLast.pprev = some prev →
      (pindexLast.nHeight : Int) + 1 ≠ p.nPerBlockDifficultyActivationHeight →
      ¬(p.fPowAllowMinDifficultyBlocks = true ∧
          pindexLast.nTime + p.nPowTargetSpacing * 2 < t) →
      (SetCompact (GetNextWorkRequiredPerBlock pindexLast t p)).1 ≤ p.powLimit) := by
  have key : ∀ v : Nat, (SetCompact (GetCompact (powClamp v p.powLimit))).1 ≤ p.powLimit := by
    intro v
    have h1 : powClamp v p.powLimit ≤ p.powLimit := by
      rw [powClamp]; split <;> omega
    exact le_trans (setCompact_getCompact_le _ (by omega)) h1
  constructor
  · intro hnr
    rw [CalculateNextWorkRequired, if_neg (by simp [hnr])]
    exact key _
  · intro hp hact hmin
    simp only [GetNextWorkRequiredPerBlock, hp]
    rw [if_neg hact, if_neg hmin, perBlockAdjust]
    exact key _

/-- C4 witness: both branches applied at concrete inputs. -/
theorem C4_result_le_powLimit_witness :
    (SetCompact (CalculateNextWorkRequired lastC4 0 pC4)).1 ≤ pC4.powLimit ∧
    (SetCompact (GetNextWorkRequiredPerBlock lastC4 50 pC4)).1 ≤ pC4.powLimit := by
  have h := C4_result_le_powLimit pC4 lastC4 prevC4 0 50 (by decide)
  exact ⟨h.1 (by decide), h.2 rfl (by decide) (by decide)⟩

/-! ## Claim C3: the minimum-difficulty exception -/

def pC3 : ConsensusParams := ⟨0x7fffff * 2 ^ 232, 150, 302400, true, false, 0, 0⟩

def lastC3 : CBlockIndex := .mk none 0 0 0x1b0404cb

def pC3w : ConsensusParams := ⟨0x7fffff * 2 ^ 232, 150, 302400, true, false, 1000, 0⟩

def prevC3w : CBlockIndex := .mk none 9 0 0x1b0404cb

def lastC3w : CBlockIndex := .mk (some prevC3w) 10 100 0x1b0404cb

/-- C3 (amended): with `allow_min_difficulty_blocks` true and
`candidate_time > last.time + 2 * spacing`, the legacy calculator returns the
`pow_limit` encoding when not at a retarget boundary (and below the per-block
activation), and the per-block calculator returns it past its early-return
branch (predecessor present, `last.height + 1` not the activation height). -/
theorem C3_minDifficulty (p : ConsensusParams) (pindexLast prev : CBlockIndex) (t : Int)
    (hmin : p.fPowAllowMinDifficultyBlocks = true)
    (hlate : pindexLast.nTime + p.nPowTargetSpacing * 2 < t) :
    ((pindexLast.nHeight : Int) + 1 < p.nPerBlockDifficultyActivationHeight →
      ((pindexLast.nHeight : Int) + 1) % p.DifficultyAdjustmentInterval ≠ 0 →
      GetNextWorkRequired pindexLast t p = some (GetCompact p.powLimit)) ∧
    (pindexLast.pprev = some prev →
      (pindexLast.nHeight : Int) + 1 ≠ p.nPerBlockDifficultyActivationHeight →
      GetNextWorkRequiredPerBlock pindexLast t p = GetCompact p.powLimit) := by
  constructor
  · intro hera hbound
    simp only [GetNextWorkRequired]
    rw [if_neg (by omega), if_pos hbound, if_pos hmin, if_pos hlate]
  · intro hp hact
    simp only [GetNextWorkRequiredPerBlock, hp]
    rw [if_neg hact, if_pos ⟨hmin, hlate⟩]

/-- C3 witness: both amended branches applied at concrete inputs. -/
theorem C3_minDifficulty_witness :
    GetNextWorkRequired lastC3w 100000 pC3w = some (GetCompact pC3w.powLimit) ∧
    GetNextWorkRequiredPerBlock lastC3w 100000 pC3w = GetCompact pC3w.powLimit := by
  have h := C3_minDifficulty pC3w lastC3w prevC3w 100000 (by decide) (by decide)
  exact ⟨h.1 (by decide) (by decide), h.2 rfl (by decide)⟩

/-- C3 counterexample: at genesis the per-block calculator ignores the
minimum-difficulty exception and returns genesis bits, not the `pow_limit`
encoding, even for a late candidate with the flag on. -/
theorem C3_counterexample :
    pC3.fPowAllowMinDifficultyBlocks = true ∧
    lastC3.nTime + pC3.nPowTargetSpacing * 2 < 1000000 ∧
    GetNextWorkRequiredPerBlock lastC3 1000000 pC3 ≠ GetCompact pC3.powLimit := by
  decide

/-! ## Claim C5: per-block activation boundary -/

def pC5 : ConsensusParams := ⟨0x7fffff * 2 ^ 232, 150, 302400, true, false, 11, 0⟩

def prevC5 : CBlockIndex := .mk none 10 0 0x1b0404cb

def lastC5 : CBlockIndex := .mk (some prevC5) 11 120 0x1b0404cb

/-- C5 (amended): at genesis or when `last.height + 1` equals the per-block
activation height the per-block calculator returns `last.bits` unchanged; one
block later (`last.height` equal to the activation height, with a
predecessor) it computes the adjustment from the timestamps of `last` and its
predecessor, provided the minimum-difficulty exception does not fire. -/
theorem C5_activation_boundary (p : ConsensusParams) (pindexLast prev : CBlockIndex)
    (t : Int) :
    ((pindexLast.pprev = none ∨
        (pindexLast.nHeight : Int) + 1 = p.nPerBlockDifficultyActivationHeight) →
      GetNextWorkRequiredPerBlock pindexLast t p = pindexLast.nBits) ∧
    (pindexLast.pprev = some prev →
      (pindexLast.nHeight : Int) = p.nPerBlockDifficultyActivationHeight →
      ¬(p.fPowAllowMinDifficultyBlocks = true ∧
          pindexLast.nTime + p.nPowTargetSpacing * 2 < t) →
      GetNextWorkRequiredPerBlock pindexLast t p = perBlockAdjust pindexLast prev p) := by
  constructor
  · rintro (hp | hact)
    · simp only [GetNextWorkRequiredPerBlock, hp]
    · rcases hpp : pindexLast.pprev with _ | prev2
      · simp only [GetNextWorkRequiredPerBlock, hpp]
      · simp only [GetNextWorkRequiredPerBlock, hpp]
        rw [if_pos hact]
  · intro hp hact hmin
    simp only [GetNextWorkRequiredPerBlock, hp]
    rw [if_neg (by omega), if_neg hmin]

/-- C5 witness: both branches applied at concrete inputs (activation height
11: the record of height 10 returns its bits unchanged, the record of height
11 rescales from the two most recent timestamps). -/
theorem C5_activation_boundary_witness :
    GetNextWorkRequiredPerBlock prevC5 0 pC5 = prevC5.nBits ∧
    GetNextWorkRequiredPerBlock lastC5 100 pC5 = perBlockAdjust lastC5 prevC5 pC5 := by
  have h1 := (C5_activation_boundary pC5 prevC5 prevC5 0).1 (Or.inl rfl)
  have h2 := (C5_activation_boundary pC5 lastC5 prevC5 100).2 rfl (by decide) (by decide)
  exact ⟨h1, h2⟩

/-- C5 counterexample: one block after activation, with the
minimum-difficulty flag on and a late candidate, the calculator returns the
`pow_limit` encoding instead of an adjustment computed from the two most
recent timestamps. -/
theorem C5_counterexample :
    lastC5.pprev = some prevC5 ∧
    (lastC5.nHeight : Int) = pC5.nPerBlockDifficultyActivationHeight ∧
    GetNextWorkRequiredPerBlock lastC5 100000 pC5 = GetCompact pC5.powLimit ∧
    perBlockAdjust lastC5 prevC5 pC5 ≠ GetCompact pC5.powLimit :=
  ⟨rfl, by decide, by decide, by decide⟩

/-! ## Chain-walk lemmas -/

/-- On a well-formed chain, `n` predecessor steps stay on the chain whenever
`n` does not exceed the height. -/
theorem walkBack_isSome : ∀ (n : Nat) (c : CBlockIndex), wellFormed c = true →
    n ≤ c.nHeight → (walkBack n (some c)).isSome = true := by
  intro n
  induction n with
  | zero => intro c _ _; rfl
  | succ n ih =>
    rintro ⟨pprev, h, tt, b⟩ hwf hn
    cases pprev with
    | none =>
      simp only [wellFormed, beq_iff_eq] at hwf
      simp only [CBlockIndex.nHeight] at hn
      omega
    | some prev =>
      simp only [wellFormed, Bool.and_eq_true, beq_iff_eq] at hwf
      simp only [CBlockIndex.nHeight] at hn
      rw [walkBack]
      simp only [CBlockIndex.pprev]
      exact ih prev hwf.2 (by omega)

/-- At a retarget boundary the number of blocks to go back never exceeds the
height of the last record. -/
theorem blockstogoback_le (h : Nat) (I : Int) (hI : 1 ≤ I)
    (hbound : ((h : Int) + 1) % I = 0) :
    (if (h : Int) + 1 = I then I - 1 else I).toNat ≤ h := by
  split_ifs with hc
  · omega
  · have hdvd : I ∣ ((h : Int) + 1) := Int.dvd_of_emod_eq_zero hbound
    have hle : I ≤ (h : Int) + 1 := Int.le_of_dvd (by omega) hdvd
    omega

/-- The minimum-difficulty lookback walk reaches genesis when every record
carries the pow-limit bits and no record of positive height sits on a
retarget boundary. -/
theorem minDiffWalk_genesis (interval : Int) (limit : Nat) :
    ∀ c : CBlockIndex, wellFormed c = true →
      chainAll (fun r => r.nBits == limit) c = true →
      chainAll (fun r => (r.nHeight == 0) || !((r.nHeight : Int) % interval == 0)) c = true →
      minDiffWalk interval limit c = tipGenesis c
  | .mk none h tt b, _, _, _ => by
    rw [minDiffWalk, tipGenesis]
  | .mk (some prev) h tt b, hwf, hb, hh => by
    simp only [wellFormed, Bool.and_eq_true, beq_iff_eq] at hwf
    simp only [chainAll, Bool.and_eq_true] at hb hh
    have hbits : b = limit := by
      have := hb.1
      simp only [CBlockIndex.nBits, beq_iff_eq] at this
      exact this
    have hmod : ((h : Int)) % interval ≠ 0 := by
      have hcur := hh.1
      simp only [CBlockIndex.nHeight, Bool.or_eq_true, beq_iff_eq,
        Bool.not_eq_eq_eq_not, Bool.not_true, beq_eq_false_iff_ne] at hcur
      rcases hcur with h0 | hne
      · omega
      · exact hne
    rw [minDiffWalk, if_pos ⟨hmod, hbits⟩, tipGenesis]
    exact minDiffWalk_genesis interval limit prev hwf.2 hb.2 hh.2

/-! ## Claim C6: the boundary walk-back -/

def pC6 : ConsensusParams := ⟨0x7fffff * 2 ^ 232, 150, 600, true, false, 1000, 0⟩

def g6 : CBlockIndex := .mk none 0 5 0x1b0404cb

def b6a : CBlockIndex := .mk (some g6) 1 10 0x1b0404cb

def b6b : CBlockIndex := .mk (some b6a) 2 20 0x1b0404cb

def b6c : CBlockIndex := .mk (some b6b) 3 30 0x1b0404cb

/-- C6: at a legacy retarget boundary the calculator walks back exactly
`interval` records (`interval - 1` when `last.height + 1` equals a single
interval) and calls the shared routine with `last` and the timestamp of the
record so reached; on a well-formed chain with positive interval that record
exists. -/
theorem C6_boundary_walkback (p : ConsensusParams) (pindexLast : CBlockIndex) (t : Int)
    (hera : (pindexLast.nHeight : Int) + 1 < p.nPerBlockDifficultyActivationHeight)
    (hbound : ((pindexLast.nHeight : Int) + 1) % p.DifficultyAdjustmentInterval = 0) :
    GetNextWorkRequired pindexLast t p =
      Option.map (fun first => CalculateNextWorkRequired pindexLast first.nTime p)
        (walkBack (if (pindexLast.nHeight : Int) + 1 = p.DifficultyAdjustmentInterval then
            p.DifficultyAdjustmentInterval - 1 else p.DifficultyAdjustmentInterval).toNat
          (some pindexLast)) ∧
    (wellFormed pindexLast = true → 1 ≤ p.DifficultyAdjustmentInterval →
      (walkBack (if (pindexLast.nHeight : Int) + 1 = p.DifficultyAdjustmentInterval then
          p.DifficultyAdjustmentInterval - 1 else p.DifficultyAdjustmentInterval).toNat
        (some pindexLast)).isSome = true) := by
  have hswap : (if (pindexLast.nHeight : Int) + 1 ≠ p.DifficultyAdjustmentInterval then
      p.DifficultyAdjustmentInterval else p.DifficultyAdjustmentInterval - 1) =
      (if (pindexLast.nHeight : Int) + 1 = p.DifficultyAdjustmentInterval then
        p.DifficultyAdjustmentInterval - 1 else p.DifficultyAdjustmentInterval) := by
    by_cases hc : (pindexLast.nHeight : Int) + 1 = p.DifficultyAdjustmentInterval <;>
      simp [hc]
  constructor
  · simp only [GetNextWorkRequired]
    rw [if_neg (by omega), if_neg (by omega), hswap]
    rcases walkBack _ (some pindexLast) with _ | first
    · rfl
    · rfl
  · intro hwf hI
    exact walkBack_isSome _ pindexLast hwf (blockstogoback_le pindexLast.nHeight
      p.DifficultyAdjustmentInterval hI hbound)

/-- C6 witness: a boundary input on a well-formed chain of four records with
interval 4 (the very first retarget: three steps back to genesis). -/
theorem C6_boundary_walkback_witness :
    GetNextWorkRequired b6c 0 pC6 =
      Option.map (fun first => CalculateNextWorkRequired b6c first.nTime pC6)
        (walkBack (if (b6c.nHeight : Int) + 1 = pC6.DifficultyAdjustmentInterval then
            pC6.DifficultyAdjustmentInterval - 1 else pC6.DifficultyAdjustmentInterval).toNat
          (some b6c)) ∧
    (walkBack (if (b6c.nHeight : Int) + 1 = pC6.DifficultyAdjustmentInterval then
        pC6.DifficultyAdjustmentInterval - 1 else pC6.DifficultyAdjustmentInterval).toNat
      (some b6c)).isSome = true := by
  have h := C6_boundary_walkback pC6 b6c 0 (by decide) (by decide)
  exact ⟨h.1, h.2 (by decide) (by decide)⟩

/-! ## Claim C9: termination of the minimum-difficulty lookback -/

def pC9 : ConsensusParams := ⟨0x7fffff * 2 ^ 232, 150, 302400, true, false, 1000, 0⟩

def g9 : CBlockIndex := .mk none 0 5 0x207fffff

def b9a : CBlockIndex := .mk (some g9) 1 10 0x207fffff

def b9b : CBlockIndex := .mk (some b9a) 2 20 0x207fffff

/-- C9: when every record back to genesis carries the pow-limit encoding and
no record of positive height is a multiple of the interval, the legacy
minimum-difficulty lookback (flag on, timely candidate, off-boundary, legacy
era) terminates at genesis and returns genesis bits. -/
theorem C9_minDiff_walk_genesis (p : ConsensusParams) (pindexLast : CBlockIndex) (t : Int)
    (hwf : wellFormed pindexLast = true)
    (hbits : chainAll (fun r => r.nBits == GetCompact p.powLimit) pindexLast = true)
    (hheights : chainAll (fun r => (r.nHeight == 0) ||
      !((r.nHeight : Int) % p.DifficultyAdjustmentInterval == 0)) pindexLast = true)
    (hera : (pindexLast.nHeight : Int) + 1 < p.nPerBlockDifficultyActivationHeight)
    (hbound : ((pindexLast.nHeight : Int) + 1) % p.DifficultyAdjustmentInterval ≠ 0)
    (hmin : p.fPowAllowMinDifficultyBlocks = true)
    (htimely : ¬(pindexLast.nTime + p.nPowTargetSpacing * 2 < t)) :
    GetNextWorkRequired pindexLast t p = some ((tipGenesis pindexLast).nBits) := by
  simp only [GetNextWorkRequired]
  rw [if_neg (by omega), if_pos hbound, if_pos hmin, if_neg htimely,
    minDiffWalk_genesis p.DifficultyAdjustmentInterval (GetCompact p.powLimit)
      pindexLast hwf hbits hheights]

/-- C9 witness: a three-record all-minimum-difficulty chain, walked to
genesis. -/
theorem C9_minDiff_walk_genesis_witness :
    GetNextWorkRequired b9b 0 pC9 = some ((tipGenesis b9b).nBits) :=
  C9_minDiff_walk_genesis pC9 b9b 0 (by decide) (by decide) (by decide) (by decide)
    (by decide) (by decide) (by decide)

/-! ## Claim C10: the walk-back assertion cannot fire -/

def pC10 : ConsensusParams := ⟨0x7fffff * 2 ^ 232, 150, 600, false, false, 1000, 0⟩

/-- C10: on a chain satisfying the data-model invariant, with an interval of
at least 1, `GetNextWorkRequired` never reaches an absent record on the
boundary walk-back, so the `assert(pindexFirst)` cannot fire (the result is
never `none`). -/
theorem C10_assert_unreachable (p : ConsensusParams) (pindexLast : CBlockIndex) (t : Int)
    (hwf : wellFormed pindexLast = true) (hI : 1 ≤ p.DifficultyAdjustmentInterval) :
    (GetNextWorkRequired pindexLast t p).isSome = true := by
  simp only [GetNextWorkRequired]
  split_ifs with h1 h2 h3 h4 h5
  · rfl
  · rfl
  · rfl
  · rfl
  · -- boundary, not the first retarget: walk back a full interval
    have hbound : ((pindexLast.nHeight : Int) + 1) % p.DifficultyAdjustmentInterval = 0 :=
      not_not.mp h2
    have hdvd : p.DifficultyAdjustmentInterval ∣ ((pindexLast.nHeight : Int) + 1) :=
      Int.dvd_of_emod_eq_zero hbound
    have hle : p.DifficultyAdjustmentInterval.toNat ≤ pindexLast.nHeight := by
      have := Int.le_of_dvd (by omega) hdvd
      omega
    have hsome := walkBack_isSome p.DifficultyAdjustmentInterval.toNat pindexLast hwf hle
    rcases hwb : walkBack p.DifficultyAdjustmentInterval.toNat (some pindexLast)
      with _ | first
    · rw [hwb] at hsome
      simp at hsome
    · rfl
  · -- the very first retarget: walk back interval - 1 = height steps
    have hle : (p.DifficultyAdjustmentInterval - 1).toNat ≤ pindexLast.nHeight := by
      omega
    have hsome := walkBack_isSome (p.DifficultyAdjustmentInterval - 1).toNat pindexLast
      hwf hle
    rcases hwb : walkBack (p.DifficultyAdjustmentInterval - 1).toNat (some pindexLast)
      with _ | first
    · rw [hwb] at hsome
      simp at hsome
    · rfl

/-- C10 witness: the theorem applied to the boundary input of a well-formed
four-record chain with interval 4. -/
theorem C10_assert_unreachable_witness :
    (GetNextWorkRequired b6c 0 pC10).isSome = true :=
  C10_assert_unreachable pC10 b6c 0 (by decide) (by decide)

/-! ## Claim C7: per-step ratio bounds -/

def pC7w : ConsensusParams := ⟨0x7fffff * 2 ^ 232, 150, 302400, false, false, 100000, 50⟩

def prevC7w : CBlockIndex := .mk none 9 0 0x1b0404cb

def lastC7a : CBlockIndex := .mk (some prevC7w) 10 1000 0x1b0404cb

def lastC7b : CBlockIndex := .mk (some prevC7w) 60 1000 0x1b0404cb

def pC7x : ConsensusParams := ⟨2 ^ 255, 60, 4, false, false, 100000, 1000⟩

def lastC7x : CBlockIndex := .mk none 10 100 0x01030000

/-- C7 (amended): writing `old` for the decoded previous target, `T` for the
legacy timespan and `s` for the per-block spacing, and provided the
intermediate product stays below `2^256`, the pre-clamp rescale output `r`
satisfies the window bounds implied by the clamped timespan, exact only up to
integer truncation (a slack of one timespan plus two divisors): below the
difficulty-change activation height `r·T ≤ old·(4T)` and
`old·⌊T/4⌋ ≤ r·T + 4T + 2T`; at or above it `r·T ≤ old·(6T)` and
`old·⌊2T/3⌋ ≤ r·T + 6T + 2T`; for the per-block calculator
`r·s ≤ old·⌊12s/10⌋` and `old·⌊9s/10⌋ ≤ r·s + ⌊12s/10⌋ + 2s`. -/
theorem C7_ratio_bounds (p : ConsensusParams) (pindexLast prev : CBlockIndex) (ft : Int)
    (hT : 0 < p.nPowTargetTimespan) (hT60 : p.nPowTargetTimespan ≤ 2 ^ 60)
    (hs : 0 < p.nPowTargetSpacing) (hs60 : p.nPowTargetSpacing ≤ 2 ^ 60) :
    ((pindexLast.nHeight : Int) < p.nDifficultyChangeActivationHeight →
      (SetCompact pindexLast.nBits).1 * (p.nPowTargetTimespan * 4).toNat < 2 ^ 256 →
      legacyPreClamp pindexLast ft p * p.nPowTargetTimespan.toNat ≤
          (SetCompact pindexLast.nBits).1 * (p.nPowTargetTimespan * 4).toNat ∧
        (SetCompact pindexLast.nBits).1 * (Int.tdiv p.nPowTargetTimespan 4).toNat ≤
          legacyPreClamp pindexLast ft p * p.nPowTargetTimespan.toNat +
            (p.nPowTargetTimespan * 4).toNat + 2 * p.nPowTargetTimespan.toNat) ∧
    ((pindexLast.nHeight : Int) ≥ p.nDifficultyChangeActivationHeight →
      (SetCompact pindexLast.nBits).1 * (p.nPowTargetTimespan * 6).toNat < 2 ^ 256 →
      legacyPreClamp pindexLast ft p * p.nPowTargetTimespan.toNat ≤
          (SetCompact pindexLast.nBits).1 * (p.nPowTargetTimespan * 6).toNat ∧
        (SetCompact pindexLast.nBits).1 * (Int.tdiv (p.nPowTargetTimespan * 2) 3).toNat ≤
          legacyPreClamp pindexLast ft p * p.nPowTargetTimespan.toNat +
            (p.nPowTargetTimespan * 6).toNat + 2 * p.nPowTargetTimespan.toNat) ∧
    ((SetCompact pindexLast.nBits).1 * (Int.tdiv (p.nPowTargetSpacing * 12) 10).toNat < 2 ^ 256 →
      perBlockPreClamp pindexLast prev p * p.nPowTargetSpacing.toNat ≤
          (SetCompact pindexLast.nBits).1 * (Int.tdiv (p.nPowTargetSpacing * 12) 10).toNat ∧
        (SetCompact pindexLast.nBits).1 * (Int.tdiv (p.nPowTargetSpacing * 9) 10).toNat ≤
          perBlockPreClamp pindexLast prev p * p.nPowTargetSpacing.toNat +
            (Int.tdiv (p.nPowTargetSpacing * 12) 10).toNat + 2 * p.nPowTargetSpacing.toNat) := by
  refine ⟨?_, ?_, ?_⟩
  · intro hera hover
    have hw := legacyClampedTimespan_old pindexLast ft p hera hT
    rw [legacyPreClamp]
    exact rescale_window (SetCompact pindexLast.nBits).1 (legacyClampedTimespan pindexLast ft p)
      (Int.tdiv p.nPowTargetTimespan 4) (p.nPowTargetTimespan * 4) p.nPowTargetTimespan
      p.powLimit hw.1 hw.2 (Int.tdiv_nonneg (by omega) (by omega)) (by omega) hT (by omega)
      hover
  · intro hera hover
    have hw := legacyClampedTimespan_new pindexLast ft p hera hT
    rw [legacyPreClamp]
    exact rescale_window (SetCompact pindexLast.nBits).1 (legacyClampedTimespan pindexLast ft p)
      (Int.tdiv (p.nPowTargetTimespan * 2) 3) (p.nPowTargetTimespan * 6) p.nPowTargetTimespan
      p.powLimit hw.1 hw.2 (Int.tdiv_nonneg (by omega) (by omega)) (by omega) hT (by omega)
      hover
  · intro hover
    have hw := perBlockClampedTimespan_mem pindexLast prev p hs
    have h12 : Int.tdiv (p.nPowTargetSpacing * 12) 10 = p.nPowTargetSpacing * 12 / 10 :=
      Int.tdiv_eq_ediv (by omega) (by omega)
    rw [perBlockPreClamp]
    exact rescale_window (SetCompact pindexLast.nBits).1
      (perBlockClampedTimespan pindexLast prev p) (Int.tdiv (p.nPowTargetSpacing * 9) 10)
      (Int.tdiv (p.nPowTargetSpacing * 12) 10) p.nPowTargetSpacing p.powLimit
      hw.1 hw.2 (Int.tdiv_nonneg (by omega) (by omega)) (by omega) hs (by omega) hover

/-- C7 witness: the three amended bounds at concrete inputs (legacy old
rules at height 10, legacy new rules at height 60, per-block). -/
theorem C7_ratio_bounds_witness :
    (legacyPreClamp lastC7a 0 pC7w * pC7w.nPowTargetTimespan.toNat ≤
        (SetCompact lastC7a.nBits).1 * (pC7w.nPowTargetTimespan * 4).toNat ∧
      (SetCompact lastC7a.nBits).1 * (Int.tdiv pC7w.nPowTargetTimespan 4).toNat ≤
        legacyPreClamp lastC7a 0 pC7w * pC7w.nPowTargetTimespan.toNat +
          (pC7w.nPowTargetTimespan * 4).toNat + 2 * pC7w.nPowTargetTimespan.toNat) ∧
    (legacyPreClamp lastC7b 0 pC7w * pC7w.nPowTargetTimespan.toNat ≤
        (SetCompact lastC7b.nBits).1 * (pC7w.nPowTargetTimespan * 6).toNat ∧
      (SetCompact lastC7b.nBits).1 * (Int.tdiv (pC7w.nPowTargetTimespan * 2) 3).toNat ≤
        legacyPreClamp lastC7b 0 pC7w * pC7w.nPowTargetTimespan.toNat +
          (pC7w.nPowTargetTimespan * 6).toNat + 2 * pC7w.nPowTargetTimespan.toNat) ∧
    (perBlockPreClamp lastC7a prevC7w pC7w * pC7w.nPowTargetSpacing.toNat ≤
        (SetCompact lastC7a.nBits).1 * (Int.tdiv (pC7w.nPowTargetSpacing * 12) 10).toNat ∧
      (SetCompact lastC7a.nBits).1 * (Int.tdiv (pC7w.nPowTargetSpacing * 9) 10).toNat ≤
        perBlockPreClamp lastC7a prevC7w pC7w * pC7w.nPowTargetSpacing.toNat +
          (Int.tdiv (pC7w.nPowTargetSpacing * 12) 10).toNat +
          2 * pC7w.nPowTargetSpacing.toNat) := by
  have ha := C7_ratio_bounds pC7w lastC7a prevC7w 0 (by decide) (by decide) (by decide)
    (by decide)
  have hb := C7_ratio_bounds pC7w lastC7b prevC7w 0 (by decide) (by decide) (by decide)
    (by decide)
  exact ⟨ha.1 (by decide) (by decide), hb.2.1 (by decide) (by decide), ha.2.2 (by decide)⟩

/-- C7 counterexample: an input that reaches the legacy old-rules rescale on
which the claimed exact 4x bound fails — the previous target decodes to 3,
the timespan floor is `⌊4/4⌋ = 1`, and the computed target is 0, an
unbounded difficulty increase. -/
theorem C7_counterexample :
    pC7x.fPowNoRetargeting = false ∧
    (lastC7x.nHeight : Int) < pC7x.nDifficultyChangeActivationHeight ∧
    legacyPreClamp lastC7x 100 pC7x * 4 < (SetCompact lastC7x.nBits).1 := by
  decide

/-! ## Claim C8: the 120-second per-block scenario -/

def pC8 : ConsensusParams := ⟨0x7fffff * 2 ^ 232, 150, 302400, false, false, 10, 0⟩

/-- C8: with spacing 150, a very large pow limit, the minimum-difficulty flag
off and two consecutive per-block headers 120 seconds apart (any base time
`t0`, any candidate time `t`), the per-block calculator clamps the elapsed
time to 135 and returns a target strictly smaller than the decoded previous
target and equal to it scaled by exactly 135/150. -/
theorem C8_per_block_scenario (t0 t : Int) :
    perBlockClampedTimespan
        (.mk (some (.mk none 99 t0 0x1d00a000)) 100 (t0 + 120) 0x1d00a000)
        (.mk none 99 t0 0x1d00a000) pC8 = 135 ∧
    GetNextWorkRequiredPerBlock
        (.mk (some (.mk none 99 t0 0x1d00a000)) 100 (t0 + 120) 0x1d00a000) t pC8 =
      0x1d009000 ∧
    (SetCompact (0x1d009000 : Nat)).1 * 150 = (SetCompact (0x1d00a000 : Nat)).1 * 135 ∧
    (SetCompact (0x1d009000 : Nat)).1 < (SetCompact (0x1d00a000 : Nat)).1 := by
  have hts : perBlockClampedTimespan
      (.mk (some (.mk none 99 t0 0x1d00a000)) 100 (t0 + 120) 0x1d00a000)
      (.mk none 99 t0 0x1d00a000) pC8 = 135 := by
    simp only [perBlockClampedTimespan, CBlockIndex.nTime, add_sub_cancel_left]
    decide
  refine ⟨hts, ?_, by decide, by decide⟩
  simp only [GetNextWorkRequiredPerBlock, CBlockIndex.pprev, CBlockIndex.nHeight,
    CBlockIndex.nTime]
  rw [if_neg (show ¬(((100 : Nat) : Int) + 1 = pC8.nPerBlockDifficultyActivationHeight) by
    decide)]
  rw [if_neg (fun hcon => absurd hcon.1 (by decide))]
  rw [perBlockAdjust, perBlockPreClamp, hts]
  simp only [CBlockIndex.nBits]
  decide

end AegisumPow
